import Mathlib

/-!
Verification of the `ar` autoregression package (ar_model.go).

The Go code is embedded shallowly over `ℚ` (exact arithmetic in place of
float64).  gonum dense matrices become Mathlib matrices over `Fin`-indexed
types; the imperative loops become structural recursions and folds; Go's
`(result, err)` returns become `Except`/product types.  Go `int` model
parameters are embedded as `ℤ` (they can be negative before validation);
inside the prediction pipeline, where parameters are already validated
(`na > 0`, `nb ≥ 0`), the loop bounds are the corresponding naturals, which
agrees with Go's `for j := 1; j <= na` semantics.
-/

namespace AutoReg

/-- ModelParameters from ar_model.go: na, nb are Go ints (may be negative
before validation), StepSize is float64 (embedded as ℚ). -/
structure ModelParameters where
  AutoregressiveLags : ℤ
  ExternalInputLags : ℤ
  StepSize : ℚ
deriving DecidableEq

/-- Predictor from ar_model.go.  Each data row `[data_value, time_value]`
is embedded as a pair `(value, time)`. -/
structure Predictor where
  Data : List (ℚ × ℚ)
  Params : ModelParameters
deriving DecidableEq

/-- The two fatal failure modes of `Predict` (insufficient data; nil phi
matrix).  The non-fatal singular-matrix condition travels alongside the
result, as in the Go code's `return result, err`. -/
inductive PredictError where
  | insufficientData
  | phiConstruction
deriving DecidableEq

/-- NewPredictor from ar_model.go: validates the parameters and stores the
data and parameters unchanged. -/
def NewPredictor (data : List (ℚ × ℚ)) (params : ModelParameters) :
    Except String Predictor :=
  if params.AutoregressiveLags ≤ 0 ∨ params.ExternalInputLags < 0 then
    Except.error "lags must be positive integers"
  else if params.StepSize ≤ 0 then
    Except.error "step size must be a positive number"
  else
    Except.ok ⟨data, params⟩

/-- extendTimeValues from ar_model.go: copy the historical time values and
append `lastTimeValue + (i+1)*stepSize` for `i = 0 .. numToPredict-1`. -/
def extendTimeValues (timeValues : List ℚ) (numToPredict : ℕ)
    (stepSize : ℚ) : List ℚ :=
  let lastTimeValue := timeValues.getD (timeValues.length - 1) 0
  timeValues ++ (List.range numToPredict).map
    (fun (i : ℕ) => lastTimeValue + ((i : ℚ) + 1) * stepSize)

/-- The row-construction loop body of constructPhiMatrix: start from a row
of `na+nb+1` zeros, set `row[j-1] := -Y[t-j]` for `j = 1..na` when
`t-j ≥ 0`, then set `row[na+j] := P[t-j]` for `j = 0..nb` when `t-j ≥ 0`
(`t` is the original-series index of the row). -/
def buildPhiRow (Y P : List ℚ) (na nb t : ℕ) : List ℚ :=
  let row0 : List ℚ := List.replicate (na + nb + 1) 0
  let row1 := (List.range na).foldl
    (fun row k => if k + 1 ≤ t then row.set k (-(Y.getD (t - (k + 1)) 0)) else row)
    row0
  (List.range (nb + 1)).foldl
    (fun row j => if j ≤ t then row.set (na + j) (P.getD (t - j) 0) else row)
    row1

/-- constructPhiMatrix from ar_model.go: `none` models the nil sentinel
when `len(Y) - m ≤ 0`; otherwise row `i` of the matrix is the row built
for original index `t = i + m`. -/
def constructPhiMatrix (Y P : List ℚ) (na nb m : ℕ) :
    Option (Matrix (Fin (Y.length - m)) (Fin (na + nb + 1)) ℚ) :=
  if Y.length ≤ m then none
  else some (Matrix.of fun i j => (buildPhiRow Y P na nb (i.val + m)).getD j.val 0)

/-- calculateTheta from ar_model.go: `y` is the last `R` entries of the
data values; theta solves the normal equations via the inverse of
`phiᵀ·phi`.  gonum's `Inverse` is modelled exactly: the inverse is
`det⁻¹ • adjugate`, and the `mat.ErrSingular` report becomes the boolean
flag `det = 0` (in that degenerate case `det⁻¹ = 0` in ℚ, so the returned
theta is the best-effort stand-in for gonum's imprecise result, matching
the code comment "close to singular ... might be imprecise but still
computable"). -/
def calculateTheta {R C : ℕ} (phi : Matrix (Fin R) (Fin C) ℚ)
    (dataValues : List ℚ) : Matrix (Fin C) (Fin 1) ℚ × Bool :=
  let y := dataValues.drop (dataValues.length - R)
  let yVec : Matrix (Fin R) (Fin 1) ℚ := Matrix.of fun i _ => y.getD i.val 0
  let phiT := phi.transpose
  let phiTphi := phiT * phi
  let phiTP := phiT * yVec
  let phiTphiInv := phiTphi.det⁻¹ • phiTphi.adjugate
  (phiTphiInv * phiTP, decide (phiTphi.det = 0))

/-- The loop body of performPrediction: Go's `sum` accumulator.  Starting
from 0, subtract `yAp[i-j] * th[j-1]` for `j = 1..na` when `i-j ≥ 0`, then
add `pl[i-j] * th[na+j]` for `j = 0..nb` when `i-j ≥ 0`. -/
def predictSum (yAp pl : List ℚ) (th : ℕ → ℚ) (na nb i : ℕ) : ℚ :=
  let s1 := (List.range na).foldl
    (fun s k => if k + 1 ≤ i then s - yAp.getD (i - (k + 1)) 0 * th k else s) 0
  (List.range (nb + 1)).foldl
    (fun s j => if j ≤ i then s + pl.getD (i - j) 0 * th (na + j) else s) s1

/-- The write-loop of performPrediction: `rem` is the number of remaining
iterations (`for i := m+1; i < len(pl); i++` runs `len(pl) - (m+1)` times),
each iteration sets `yAp[i] := predictSum yAp i` and moves to `i+1`. -/
def predictLoop (pl : List ℚ) (th : ℕ → ℚ) (na nb : ℕ) :
    List ℚ → ℕ → ℕ → List ℚ
  | yAp, _, 0 => yAp
  | yAp, i, rem + 1 =>
      predictLoop pl th na nb (yAp.set i (predictSum yAp pl th na nb i)) (i + 1) rem

/-- performPrediction from ar_model.go: allocate `yAp` of length
`len(pl)`, copy the historical data values into its prefix (zeros beyond),
then run the write-loop from index `m+1` up to `len(pl)-1`.  `th k` models
`th.At(k, 0)`. -/
def performPrediction (dataValues pl : List ℚ) (th : ℕ → ℚ)
    (m na nb : ℕ) : List ℚ :=
  let yAp := (List.range pl.length).map fun i => dataValues.getD i 0
  predictLoop pl th na nb yAp (m + 1) (pl.length - (m + 1))

/-- Predict from ar_model.go.  The Go `(result, err)` pair with a possible
non-fatal `mat.ErrSingular` is modelled as `Except` whose success value
carries the singular flag; the fatal paths (`insufficient data`, nil phi)
are the error cases.  Validated parameters are non-negative, so the `ℤ`
parameters enter the loops through `Int.toNat` (Go's loops likewise run
zero times for non-positive bounds). -/
def Predict (p : Predictor) (numToPredict : ℕ) :
    Except PredictError (List (ℚ × ℚ) × Bool) :=
  let na := p.Params.AutoregressiveLags
  let nb := p.Params.ExternalInputLags
  let stepSize := p.Params.StepSize
  let m : ℤ := max na nb
  if (p.Data.length : ℤ) ≤ m then
    Except.error PredictError.insufficientData
  else
    let dataValues := p.Data.map Prod.fst
    let timeValues := p.Data.map Prod.snd
    let pl := extendTimeValues timeValues numToPredict stepSize
    match constructPhiMatrix dataValues timeValues na.toNat nb.toNat m.toNat with
    | none => Except.error PredictError.phiConstruction
    | some phi =>
        let thRes := calculateTheta phi dataValues
        let th := fun k : ℕ =>
          if h : k < na.toNat + nb.toNat + 1 then thRes.1 ⟨k, h⟩ 0 else 0
        let yAp := performPrediction dataValues pl th m.toNat na.toNat nb.toNat
        Except.ok (pl.zip yAp, thRes.2)

/-- Whether the normal-equations matrix `phiᵀ·phi` arising inside
`Predict` for this predictor is exactly singular (the condition gonum
reports as `mat.ErrSingular`). -/
def phiSingular (p : Predictor) : Bool :=
  let na := p.Params.AutoregressiveLags
  let nb := p.Params.ExternalInputLags
  let m : ℤ := max na nb
  let dataValues := p.Data.map Prod.fst
  let timeValues := p.Data.map Prod.snd
  match constructPhiMatrix dataValues timeValues na.toNat nb.toNat m.toNat with
  | none => false
  | some phi => decide ((phi.transpose * phi).det = 0)

/-! ### List helper lemmas -/

lemma getD_set_self (l : List ℚ) (i : ℕ) (v : ℚ) (h : i < l.length) :
    (l.set i v).getD i 0 = v := by
  simp [List.getD_eq_getElem?_getD, List.getElem?_set, h]

lemma getD_set_ne (l : List ℚ) (i j : ℕ) (v : ℚ) (h : i ≠ j) :
    (l.set i v).getD j 0 = l.getD j 0 := by
  simp [List.getD_eq_getElem?_getD, List.getElem?_set_ne h]

lemma seed_getD (dataValues : List ℚ) (n i : ℕ) :
    ((List.range n).map fun k => dataValues.getD k 0).getD i 0 =
      if i < n then dataValues.getD i 0 else 0 := by
  rcases lt_or_le i n with h | h
  · rw [List.getD_eq_getElem _ _ (by simpa using h), if_pos h]
    simp
  · rw [List.getD_eq_default _ _ (by simpa using h), if_neg (by omega)]

lemma zip_getD (l1 l2 : List ℚ) (i : ℕ) (h1 : i < l1.length) (h2 : i < l2.length) :
    (l1.zip l2).getD i (0, 0) = (l1.getD i 0, l2.getD i 0) := by
  rw [List.getD_eq_getElem _ _ (by simp [List.length_zip]; omega),
    List.getElem_zip, List.getD_eq_getElem _ _ h1, List.getD_eq_getElem _ _ h2]

lemma map_fst_getD (l : List (ℚ × ℚ)) (i : ℕ) (h : i < l.length) :
    (l.map Prod.fst).getD i 0 = (l.getD i (0, 0)).1 := by
  rw [List.getD_eq_getElem _ _ (by simpa using h), List.getD_eq_getElem _ _ h]
  simp

lemma map_snd_getD (l : List (ℚ × ℚ)) (i : ℕ) (h : i < l.length) :
    (l.map Prod.snd).getD i 0 = (l.getD i (0, 0)).2 := by
  rw [List.getD_eq_getElem _ _ (by simpa using h), List.getD_eq_getElem _ _ h]
  simp

/-! ### Lemmas about the set-in-a-fold loops of buildPhiRow -/

lemma foldl_set_length (q : ℕ → Prop) [DecidablePred q] (idx : ℕ → ℕ) (g : ℕ → ℚ) :
    ∀ (l : List ℕ) (row : List ℚ),
      (l.foldl (fun r k => if q k then r.set (idx k) (g k) else r) row).length = row.length := by
  intro l
  induction l with
  | nil => intro row; rfl
  | cons k l ih =>
      intro row
      simp only [List.foldl_cons]
      rw [ih]
      split <;> simp

lemma foldl_set_range_getD_untouched (q : ℕ → Prop) [DecidablePred q] (idx : ℕ → ℕ)
    (g : ℕ → ℚ) (c : ℕ) :
    ∀ (n : ℕ) (row : List ℚ), (∀ k, k < n → q k → idx k ≠ c) →
      ((List.range n).foldl (fun r k => if q k then r.set (idx k) (g k) else r) row).getD c 0 =
        row.getD c 0 := by
  intro n
  induction n with
  | zero => intro row _; rfl
  | succ n ih =>
      intro row hk
      rw [List.range_succ, List.foldl_append]
      simp only [List.foldl_cons, List.foldl_nil]
      split
      · rename_i hq
        rw [getD_set_ne _ _ _ _ (hk n (by omega) hq), ih row (fun k h hq => hk k (by omega) hq)]
      · exact ih row (fun k h hq => hk k (by omega) hq)

lemma foldl_set_range_getD_touched (q : ℕ → Prop) [DecidablePred q] (idx : ℕ → ℕ)
    (hinj : ∀ a b, idx a = idx b → a = b) (g : ℕ → ℚ) (c k0 : ℕ) (hq : q k0)
    (hidx : idx k0 = c) :
    ∀ (n : ℕ) (row : List ℚ), k0 < n → c < row.length →
      ((List.range n).foldl (fun r k => if q k then r.set (idx k) (g k) else r) row).getD c 0 =
        g k0 := by
  intro n
  induction n with
  | zero => intro row h; omega
  | succ n ih =>
      intro row hk0 hc
      rw [List.range_succ, List.foldl_append]
      simp only [List.foldl_cons, List.foldl_nil]
      rcases Nat.lt_or_ge k0 n with h | h
      · have hne : idx n ≠ c := fun he => by
          have := hinj n k0 (he.trans hidx.symm); omega
        split
        · rw [getD_set_ne _ _ _ _ hne, ih row h hc]
        · exact ih row h hc
      · have hk0n : k0 = n := by omega
        subst hk0n
        rw [if_pos hq, hidx]
        exact getD_set_self _ _ _ (by rw [foldl_set_length]; exact hc)

lemma buildPhiRow_length (Y P : List ℚ) (na nb t : ℕ) :
    (buildPhiRow Y P na nb t).length = na + nb + 1 := by
  unfold buildPhiRow
  rw [foldl_set_length (fun j => j ≤ t) (fun j => na + j),
    foldl_set_length (fun k => k + 1 ≤ t) (fun k => k), List.length_replicate]

/-- Closed form of the loop-built phi row: column `c < na` holds
`-Y[t-(c+1)]` when in range (0-padded otherwise), column `c ≥ na` holds
`P[t-(c-na)]` when in range (0-padded otherwise). -/
lemma buildPhiRow_getD (Y P : List ℚ) (na nb t c : ℕ) (hc : c < na + nb + 1) :
    (buildPhiRow Y P na nb t).getD c 0 =
      if c < na then (if c + 1 ≤ t then -(Y.getD (t - (c + 1)) 0) else 0)
      else (if c - na ≤ t then P.getD (t - (c - na)) 0 else 0) := by
  unfold buildPhiRow
  have hrow1len : ((List.range na).foldl
      (fun row k => if k + 1 ≤ t then row.set k (-(Y.getD (t - (k + 1)) 0)) else row)
      (List.replicate (na + nb + 1) (0 : ℚ))).length = na + nb + 1 := by
    rw [foldl_set_length (fun k => k + 1 ≤ t) (fun k => k), List.length_replicate]
  rcases Nat.lt_or_ge c na with h | h
  · rw [if_pos h]
    rw [foldl_set_range_getD_untouched (fun j => j ≤ t) (fun j => na + j) _ c (nb + 1) _
      (fun k hk hqk => by show na + k ≠ c; omega)]
    by_cases hq : c + 1 ≤ t
    · rw [if_pos hq]
      exact foldl_set_range_getD_touched (fun k => k + 1 ≤ t) (fun k => k)
        (fun a b hab => hab) _ c c hq rfl na
        (List.replicate (na + nb + 1) (0 : ℚ)) h (by simpa using hc)
    · rw [if_neg hq]
      rw [foldl_set_range_getD_untouched (fun k => k + 1 ≤ t) (fun k => k) _ c na _
        (fun k hk hqk => by show k ≠ c; omega)]
      simp [List.getD_eq_getElem?_getD, List.getElem?_replicate, hc]
  · rw [if_neg (by omega)]
    by_cases hq : c - na ≤ t
    · rw [if_pos hq]
      exact foldl_set_range_getD_touched (fun j => j ≤ t) (fun j => na + j)
        (fun a b hab => by have h2 : na + a = na + b := hab; omega) _ c (c - na) hq
        (by show na + (c - na) = c; omega) (nb + 1)
        ((List.range na).foldl
          (fun row k => if k + 1 ≤ t then row.set k (-(Y.getD (t - (k + 1)) 0)) else row)
          (List.replicate (na + nb + 1) (0 : ℚ))) (by omega)
        (by rw [hrow1len]; exact hc)
    · rw [if_neg hq]
      rw [foldl_set_range_getD_untouched (fun j => j ≤ t) (fun j => na + j) _ c (nb + 1) _
        (fun k hk hqk => by show na + k ≠ c; omega)]
      rw [foldl_set_range_getD_untouched (fun k => k + 1 ≤ t) (fun k => k) _ c na _
        (fun k hk hqk => by show k ≠ c; omega)]
      simp [List.getD_eq_getElem?_getD, List.getElem?_replicate, hc]

/-! ### Lemmas about the recursive prediction loop -/

lemma predictLoop_length (pl : List ℚ) (th : ℕ → ℚ) (na nb : ℕ) :
    ∀ (rem : ℕ) (yAp : List ℚ) (i : ℕ),
      (predictLoop pl th na nb yAp i rem).length = yAp.length := by
  intro rem
  induction rem with
  | zero => intro yAp i; rfl
  | succ rem ih =>
      intro yAp i
      rw [predictLoop, ih]
      simp

lemma predictLoop_getD_lt (pl : List ℚ) (th : ℕ → ℚ) (na nb : ℕ) :
    ∀ (rem : ℕ) (yAp : List ℚ) (i k : ℕ), k < i →
      (predictLoop pl th na nb yAp i rem).getD k 0 = yAp.getD k 0 := by
  intro rem
  induction rem with
  | zero => intro yAp i k _; rfl
  | succ rem ih =>
      intro yAp i k hk
      rw [predictLoop, ih _ _ _ (by omega), getD_set_ne _ _ _ _ (by omega)]

lemma performPrediction_length (dataValues pl : List ℚ) (th : ℕ → ℚ) (m na nb : ℕ) :
    (performPrediction dataValues pl th m na nb).length = pl.length := by
  unfold performPrediction
  rw [predictLoop_length]
  simp

/-- predictSum only reads entries of yAp strictly below index i. -/
lemma predictSum_congr (a b pl : List ℚ) (th : ℕ → ℚ) (na nb i : ℕ)
    (h : ∀ k, k < i → a.getD k 0 = b.getD k 0) :
    predictSum a pl th na nb i = predictSum b pl th na nb i := by
  unfold predictSum
  have h1 : ∀ (l : List ℕ) (s : ℚ),
      l.foldl (fun s k => if k + 1 ≤ i then s - a.getD (i - (k + 1)) 0 * th k else s) s =
      l.foldl (fun s k => if k + 1 ≤ i then s - b.getD (i - (k + 1)) 0 * th k else s) s := by
    intro l
    induction l with
    | nil => intro s; rfl
    | cons k l ih =>
        intro s
        simp only [List.foldl_cons]
        rw [ih]
        by_cases hk : k + 1 ≤ i
        · rw [if_pos hk, if_pos hk, h (i - (k + 1)) (by omega)]
        · rw [if_neg hk, if_neg hk]
  rw [h1]

/-- The main write-loop invariant: every entry at an index the loop has
written satisfies the recurrence with respect to the FINAL contents of the
buffer (earlier entries are never overwritten after being written). -/
lemma predictLoop_getD_written (pl : List ℚ) (th : ℕ → ℚ) (na nb : ℕ) :
    ∀ (rem : ℕ) (yAp : List ℚ) (i j : ℕ), yAp.length = pl.length →
      i + rem = pl.length → i ≤ j → j < pl.length →
      (predictLoop pl th na nb yAp i rem).getD j 0 =
        predictSum (predictLoop pl th na nb yAp i rem) pl th na nb j := by
  intro rem
  induction rem with
  | zero => intro yAp i j _ hrem hij hj; omega
  | succ rem ih =>
      intro yAp i j hlen hrem hij hj
      rw [predictLoop]
      rcases Nat.eq_or_lt_of_le hij with hji | hji
      · subst hji
        rw [predictLoop_getD_lt _ _ _ _ _ _ _ _ (by omega),
          getD_set_self _ _ _ (by omega)]
        refine predictSum_congr _ _ _ _ _ _ _ (fun k hk => ?_)
        rw [predictLoop_getD_lt _ _ _ _ _ _ _ _ (by omega),
          getD_set_ne _ _ _ _ (by omega)]
      · exact ih _ (i + 1) j (by simpa using hlen) (by omega) (by omega) hj

lemma foldl_add_eq_sum (g : ℕ → ℚ) :
    ∀ (l : List ℕ) (s : ℚ), l.foldl (fun s k => s + g k) s = s + (l.map g).sum := by
  intro l
  induction l with
  | nil => intro s; simp
  | cons k l ih =>
      intro s
      simp only [List.foldl_cons, List.map_cons, List.sum_cons]
      rw [ih]
      ring

/-- The accumulator loops of predictSum compute the two lag sums of the AR
recurrence. -/
lemma predictSum_eq (yAp pl : List ℚ) (th : ℕ → ℚ) (na nb i : ℕ) :
    predictSum yAp pl th na nb i =
      ((List.range na).map fun k =>
        if k + 1 ≤ i then -(th k * yAp.getD (i - (k + 1)) 0) else 0).sum +
      ((List.range (nb + 1)).map fun j =>
        if j ≤ i then th (na + j) * pl.getD (i - j) 0 else 0).sum := by
  unfold predictSum
  have e1 : (fun (s : ℚ) (k : ℕ) => if k + 1 ≤ i then s - yAp.getD (i - (k + 1)) 0 * th k else s) =
      (fun (s : ℚ) (k : ℕ) => s + (if k + 1 ≤ i then -(th k * yAp.getD (i - (k + 1)) 0) else 0)) := by
    funext s k
    by_cases hk : k + 1 ≤ i
    · rw [if_pos hk, if_pos hk]; ring
    · rw [if_neg hk, if_neg hk]; ring
  have e2 : (fun (s : ℚ) (j : ℕ) => if j ≤ i then s + pl.getD (i - j) 0 * th (na + j) else s) =
      (fun (s : ℚ) (j : ℕ) => s + (if j ≤ i then th (na + j) * pl.getD (i - j) 0 else 0)) := by
    funext s j
    by_cases hj : j ≤ i
    · rw [if_pos hj, if_pos hj]; ring
    · rw [if_neg hj, if_neg hj]; ring
  rw [e1, e2, foldl_add_eq_sum, foldl_add_eq_sum]
  ring

/-! ### Claim C2 (recursive forecaster: idempotence on history) -/

/-- C2 as stated is false: the write-loop runs from `m+1` and overwrites
historical positions in `(m, min(L, len Y))` with predictions.  Concretely
for `Y = [1,2,3]`, `pl = [10,20,30]`, `theta = [1/2,1/2,1,1]`, `m = 1`,
`na = 2`, `nb = 1`, output index `2 < min(L, len Y) = 3` holds `48.5`, not
the historical `Y[2] = 3`. -/
theorem claim_C2_counterexample :
    ¬ (∀ i, i < min ([(10 : ℚ), 20, 30] : List ℚ).length ([(1 : ℚ), 2, 3] : List ℚ).length →
        (performPrediction [1, 2, 3] [10, 20, 30]
          (fun k => ([1/2, 1/2, 1, 1] : List ℚ).getD k 0) 1 2 1).getD i 0 =
          ([(1 : ℚ), 2, 3] : List ℚ).getD i 0) := by
  intro hall
  have h := hall 2 (by decide)
  rw [show ([(1 : ℚ), 2, 3] : List ℚ).getD 2 0 = 3 from rfl] at h
  norm_num [performPrediction, predictLoop, predictSum, List.range_succ] at h

/-- C2 amended: only the first `min(L, len Y, m+1)` entries of the output
(the positions the write-loop never touches) are guaranteed to equal the
historical values. -/
theorem claim_C2_amended_holds (Y pl : List ℚ) (th : ℕ → ℚ) (m na nb : ℕ) (i : ℕ)
    (h1 : i < pl.length) (h2 : i < Y.length) (h3 : i ≤ m) :
    (performPrediction Y pl th m na nb).getD i 0 = Y.getD i 0 := by
  unfold performPrediction
  rw [predictLoop_getD_lt _ _ _ _ _ _ _ _ (by omega), seed_getD, if_pos h1]

/-- Witness for the amended C2 at concrete inputs. -/
theorem claim_C2_amended_witness :
    (1 : ℕ) < ([(10 : ℚ), 20, 30] : List ℚ).length ∧
    (1 : ℕ) < ([(1 : ℚ), 2, 3] : List ℚ).length ∧ (1 : ℕ) ≤ 1 ∧
    (performPrediction [1, 2, 3] [10, 20, 30]
      (fun k => ([1/2, 1/2, 1, 1] : List ℚ).getD k 0) 1 2 1).getD 1 0 =
      ([(1 : ℚ), 2, 3] : List ℚ).getD 1 0 :=
  ⟨by decide, by decide, le_refl 1,
    claim_C2_amended_holds [1, 2, 3] [10, 20, 30]
      (fun k => ([1/2, 1/2, 1, 1] : List ℚ).getD k 0) 1 2 1 1
      (by decide) (by decide) (le_refl 1)⟩

/-! ### Claim C4 (recursive forecaster: the AR recurrence) -/

/-- C4: for every written index `i` in `[m+1, L)` the final forecast
buffer satisfies
`yAp[i] = Σ_{j=1..na, i-j≥0} (-theta[j-1]·yAp[i-j]) + Σ_{j=0..nb, i-j≥0} (theta[na+j]·pl[i-j])`
with respect to its own (previously computed or seeded) earlier entries,
and every index `≤ m` — in particular index `m` itself — keeps the seeded
value and is never recomputed. -/
theorem claim_C4_recurrence (dataValues pl : List ℚ) (th : ℕ → ℚ) (m na nb : ℕ) :
    (∀ i, m + 1 ≤ i → i < pl.length →
      (performPrediction dataValues pl th m na nb).getD i 0 =
        ((List.range na).map fun k =>
          if k + 1 ≤ i then
            -(th k * (performPrediction dataValues pl th m na nb).getD (i - (k + 1)) 0)
          else 0).sum +
        ((List.range (nb + 1)).map fun j =>
          if j ≤ i then th (na + j) * pl.getD (i - j) 0 else 0).sum) ∧
    (∀ i, i ≤ m →
      (performPrediction dataValues pl th m na nb).getD i 0 =
        (if i < pl.length then dataValues.getD i 0 else 0)) := by
  constructor
  · intro i hi1 hi2
    conv_lhs => rw [performPrediction]
    rw [predictLoop_getD_written pl th na nb (pl.length - (m + 1)) _ (m + 1) i
      (by simp) (by omega) hi1 hi2, predictSum_eq]
    rfl
  · intro i hi
    unfold performPrediction
    rw [predictLoop_getD_lt _ _ _ _ _ _ _ _ (by omega), seed_getD]

/-- Witness for C4 at concrete inputs (i = 2, m = 1, na = 2, nb = 1). -/
theorem claim_C4_witness :
    1 + 1 ≤ 2 ∧ (2 : ℕ) < ([(10 : ℚ), 20, 30] : List ℚ).length ∧
    (performPrediction [1, 2, 3] [10, 20, 30]
      (fun k => ([1/2, 1/2, 1, 1] : List ℚ).getD k 0) 1 2 1).getD 2 0 =
      ((List.range 2).map fun k =>
        if k + 1 ≤ 2 then
          -((fun k => ([1/2, 1/2, 1, 1] : List ℚ).getD k 0) k *
            (performPrediction [1, 2, 3] [10, 20, 30]
              (fun k => ([1/2, 1/2, 1, 1] : List ℚ).getD k 0) 1 2 1).getD (2 - (k + 1)) 0)
        else 0).sum +
      ((List.range (1 + 1)).map fun j =>
        if j ≤ 2 then
          (fun k => ([1/2, 1/2, 1, 1] : List ℚ).getD k 0) (2 + j) *
            ([(10 : ℚ), 20, 30] : List ℚ).getD (2 - j) 0
        else 0).sum :=
  ⟨le_refl 2, by decide,
    (claim_C4_recurrence [1, 2, 3] [10, 20, 30]
      (fun k => ([1/2, 1/2, 1, 1] : List ℚ).getD k 0) 1 2 1).1 2 (le_refl 2) (by decide)⟩

/-! ### Claim C3 (design-matrix builder) -/

/-- C3: with `m = max na nb`, the builder returns the `none` sentinel iff
`N ≤ m`; otherwise it returns the `(N-m) × (na+nb+1)` matrix whose row `i`
(original index `t = i + m`) has column `j-1 = -Y[t-j]` for `j = 1..na`
(0 when `t-j < 0`) and column `na+j = P[t-j]` for `j = 0..nb` (0 when
`t-j < 0`). -/
theorem claim_C3_phi_matrix (Y P : List ℚ) (na nb : ℕ) (hP : P.length = Y.length) :
    (Y.length ≤ max na nb → constructPhiMatrix Y P na nb (max na nb) = none) ∧
    (max na nb < Y.length →
      ∃ M, constructPhiMatrix Y P na nb (max na nb) = some M ∧
        ∀ (i : Fin (Y.length - max na nb)) (c : Fin (na + nb + 1)),
          (c.val < na →
            M i c = if c.val + 1 ≤ i.val + max na nb
              then -(Y.getD (i.val + max na nb - (c.val + 1)) 0) else 0) ∧
          (na ≤ c.val →
            M i c = if c.val - na ≤ i.val + max na nb
              then P.getD (i.val + max na nb - (c.val - na)) 0 else 0)) := by
  constructor
  · intro h
    rw [constructPhiMatrix, if_pos h]
  · intro h
    refine ⟨Matrix.of fun i c =>
        (buildPhiRow Y P na nb (i.val + max na nb)).getD c.val 0,
      by rw [constructPhiMatrix, if_neg (by omega)], fun i c => ?_⟩
    have he := buildPhiRow_getD Y P na nb (i.val + max na nb) c.val c.isLt
    constructor
    · intro hc
      rw [Matrix.of_apply, he, if_pos hc]
    · intro hc
      rw [Matrix.of_apply, he, if_neg (by omega)]

/-- Witness for C3 at `Y = [1..5]`, `P = [10..50]`, `na = 2`, `nb = 1`
(the 3×4 case of the repository's own tests). -/
theorem claim_C3_witness :
    ([(10 : ℚ), 20, 30, 40, 50] : List ℚ).length = ([(1 : ℚ), 2, 3, 4, 5] : List ℚ).length ∧
    ((([(1 : ℚ), 2, 3, 4, 5] : List ℚ).length ≤ max 2 1 →
        constructPhiMatrix [1, 2, 3, 4, 5] [10, 20, 30, 40, 50] 2 1 (max 2 1) = none) ∧
      (max 2 1 < ([(1 : ℚ), 2, 3, 4, 5] : List ℚ).length →
        ∃ M, constructPhiMatrix [1, 2, 3, 4, 5] [10, 20, 30, 40, 50] 2 1 (max 2 1) =
            some M ∧
          ∀ (i : Fin (([(1 : ℚ), 2, 3, 4, 5] : List ℚ).length - max 2 1))
            (c : Fin (2 + 1 + 1)),
            (c.val < 2 →
              M i c = if c.val + 1 ≤ i.val + max 2 1
                then -(([(1 : ℚ), 2, 3, 4, 5] : List ℚ).getD
                  (i.val + max 2 1 - (c.val + 1)) 0)
                else 0) ∧
            (2 ≤ c.val →
              M i c = if c.val - 2 ≤ i.val + max 2 1
                then ([(10 : ℚ), 20, 30, 40, 50] : List ℚ).getD
                  (i.val + max 2 1 - (c.val - 2)) 0
                else 0))) :=
  ⟨by decide, claim_C3_phi_matrix [1, 2, 3, 4, 5] [10, 20, 30, 40, 50] 2 1 (by decide)⟩

/-! ### Claim C9 (time-axis extender) -/

lemma range_map_getD (f : ℕ → ℚ) (n j : ℕ) (h : j < n) :
    ((List.range n).map f).getD j 0 = f j := by
  rw [List.getD_eq_getElem _ _ (by simpa using h)]
  simp

lemma extendTimeValues_length (timeValues : List ℚ) (n : ℕ) (s : ℚ) :
    (extendTimeValues timeValues n s).length = timeValues.length + n := by
  simp [extendTimeValues]

lemma extendTimeValues_getD_lt (timeValues : List ℚ) (n : ℕ) (s : ℚ) (i : ℕ)
    (h : i < timeValues.length) :
    (extendTimeValues timeValues n s).getD i 0 = timeValues.getD i 0 :=
  List.getD_append _ _ _ _ h

lemma extendTimeValues_getD_future (timeValues : List ℚ) (n : ℕ) (s : ℚ) (k : ℕ)
    (hk1 : 1 ≤ k) (hk2 : k ≤ n) :
    (extendTimeValues timeValues n s).getD (timeValues.length + k - 1) 0 =
      timeValues.getD (timeValues.length - 1) 0 + (k : ℚ) * s := by
  rw [extendTimeValues]
  rw [List.getD_append_right _ _ _ _ (by omega)]
  have hidx : timeValues.length + k - 1 - timeValues.length = k - 1 := by omega
  rw [hidx, range_map_getD _ _ _ (by omega)]
  have hcast : ((k - 1 : ℕ) : ℚ) + 1 = (k : ℚ) := by
    have h2 : ((k - 1 : ℕ) : ℚ) = (k : ℚ) - 1 := by
      push_cast [Nat.cast_sub hk1]
      ring
    rw [h2]; ring
  rw [hcast]

/-- C9: the extender returns a sequence of length `n + numToPredict` whose
first `n` entries are the historical values and whose entry at index
`n + k - 1` is `lastHistoricalInput + k·StepSize` for `k = 1..numToPredict`;
for `numToPredict = 0` the result equals the input sequence. -/
theorem claim_C9_extend (timeValues : List ℚ) (numToPredict : ℕ) (stepSize : ℚ)
    (hne : timeValues ≠ []) :
    (extendTimeValues timeValues numToPredict stepSize).length =
      timeValues.length + numToPredict ∧
    (∀ i, i < timeValues.length →
      (extendTimeValues timeValues numToPredict stepSize).getD i 0 = timeValues.getD i 0) ∧
    (∀ k, 1 ≤ k → k ≤ numToPredict →
      (extendTimeValues timeValues numToPredict stepSize).getD
          (timeValues.length + k - 1) 0 =
        timeValues.getD (timeValues.length - 1) 0 + (k : ℚ) * stepSize) ∧
    (numToPredict = 0 → extendTimeValues timeValues numToPredict stepSize = timeValues) := by
  refine ⟨extendTimeValues_length timeValues numToPredict stepSize,
    fun i hi => extendTimeValues_getD_lt timeValues numToPredict stepSize i hi,
    fun k hk1 hk2 => extendTimeValues_getD_future timeValues numToPredict stepSize k hk1 hk2,
    fun h0 => ?_⟩
  subst h0
  simp [extendTimeValues]

/-- Witness for C9 at `extend([1,2,3], 2, 1)`. -/
theorem claim_C9_witness :
    ([(1 : ℚ), 2, 3] : List ℚ) ≠ [] ∧
    ((extendTimeValues [1, 2, 3] 2 1).length = ([(1 : ℚ), 2, 3] : List ℚ).length + 2 ∧
     (∀ i, i < ([(1 : ℚ), 2, 3] : List ℚ).length →
       (extendTimeValues [1, 2, 3] 2 1).getD i 0 = ([(1 : ℚ), 2, 3] : List ℚ).getD i 0) ∧
     (∀ k, 1 ≤ k → k ≤ 2 →
       (extendTimeValues [1, 2, 3] 2 1).getD (([(1 : ℚ), 2, 3] : List ℚ).length + k - 1) 0 =
         ([(1 : ℚ), 2, 3] : List ℚ).getD (([(1 : ℚ), 2, 3] : List ℚ).length - 1) 0 +
           (k : ℚ) * 1) ∧
     ((2 : ℕ) = 0 → extendTimeValues [1, 2, 3] 2 1 = [1, 2, 3])) :=
  ⟨by simp, claim_C9_extend [1, 2, 3] 2 1 (by simp)⟩

/-! ### Claims C7 and C10 (insufficient data; construction never inspects data) -/

/-- The insufficient-data check is the first thing Predict does, so it
fires for any parameters whenever `len(Data) ≤ max(na, nb)`. -/
lemma Predict_insufficient (p : Predictor) (numToPredict : ℕ)
    (hlen : (p.Data.length : ℤ) ≤
      max p.Params.AutoregressiveLags p.Params.ExternalInputLags) :
    Predict p numToPredict = Except.error PredictError.insufficientData := by
  simp only [Predict]
  rw [if_pos hlen]

/-- C7: with validated parameters, Predict fails with the
insufficient-data error (and produces no result) whenever the series
length is at most `m = max(na, nb)`; the error is the dedicated
insufficient-data one, raised before phi-matrix construction. -/
theorem claim_C7_insufficient_data (p : Predictor) (numToPredict : ℕ)
    (hna : 0 < p.Params.AutoregressiveLags) (hnb : 0 ≤ p.Params.ExternalInputLags)
    (hstep : 0 < p.Params.StepSize)
    (hlen : (p.Data.length : ℤ) ≤
      max p.Params.AutoregressiveLags p.Params.ExternalInputLags) :
    Predict p numToPredict = Except.error PredictError.insufficientData :=
  Predict_insufficient p numToPredict hlen

/-- Witness for C7: two data points with na = 2. -/
theorem claim_C7_witness :
    (0 : ℤ) < 2 ∧ (0 : ℤ) ≤ 1 ∧ (0 : ℚ) < 1 ∧
    ((([((1 : ℚ), (1 : ℚ)), ((2 : ℚ), (2 : ℚ))] : List (ℚ × ℚ)).length : ℤ) ≤ max 2 1) ∧
    Predict ⟨[((1 : ℚ), (1 : ℚ)), ((2 : ℚ), (2 : ℚ))], ⟨2, 1, 1⟩⟩ 5 =
      Except.error PredictError.insufficientData :=
  ⟨by decide, by decide, by norm_num, by decide,
    claim_C7_insufficient_data ⟨[((1 : ℚ), (1 : ℚ)), ((2 : ℚ), (2 : ℚ))], ⟨2, 1, 1⟩⟩ 5
      (by decide) (by decide) (by norm_num) (by decide)⟩

/-- C10: NewPredictor never inspects the data series — with valid
parameters it succeeds for every data slice (including the empty one),
its success/failure is independent of the data, and a series too short
for the lags is reported only later, by Predict, as the
insufficient-data error. -/
theorem claim_C10_never_inspects_data (data : List (ℚ × ℚ)) (params : ModelParameters) :
    (0 < params.AutoregressiveLags → 0 ≤ params.ExternalInputLags →
      0 < params.StepSize → NewPredictor data params = Except.ok ⟨data, params⟩) ∧
    ((∃ e, NewPredictor data params = Except.error e) ↔
      (∃ e, NewPredictor ([] : List (ℚ × ℚ)) params = Except.error e)) ∧
    (∀ numToPredict : ℕ,
      (data.length : ℤ) ≤ max params.AutoregressiveLags params.ExternalInputLags →
      Predict ⟨data, params⟩ numToPredict = Except.error PredictError.insufficientData) := by
  refine ⟨fun hna hnb hstep => ?_, ?_, fun numToPredict hlen =>
    Predict_insufficient ⟨data, params⟩ numToPredict hlen⟩
  · rw [NewPredictor, if_neg (by omega), if_neg (by exact not_le.mpr hstep)]
  · by_cases h1 : params.AutoregressiveLags ≤ 0 ∨ params.ExternalInputLags < 0
    · constructor
      · intro _; exact ⟨_, by rw [NewPredictor, if_pos h1]⟩
      · intro _; exact ⟨_, by rw [NewPredictor, if_pos h1]⟩
    · by_cases h2 : params.StepSize ≤ 0
      · constructor
        · intro _; exact ⟨_, by rw [NewPredictor, if_neg h1, if_pos h2]⟩
        · intro _; exact ⟨_, by rw [NewPredictor, if_neg h1, if_pos h2]⟩
      · constructor
        · rintro ⟨e, he⟩
          rw [NewPredictor, if_neg h1, if_neg h2] at he
          exact Except.noConfusion he
        · rintro ⟨e, he⟩
          rw [NewPredictor, if_neg h1, if_neg h2] at he
          exact Except.noConfusion he

/-- Witness for C10: empty data with valid parameters still constructs,
and a 0-length series only fails later, inside Predict. -/
theorem claim_C10_witness :
    ((0 : ℤ) < 1 → (0 : ℤ) ≤ 0 → (0 : ℚ) < 1 →
      NewPredictor ([] : List (ℚ × ℚ)) ⟨1, 0, 1⟩ =
        Except.ok ⟨([] : List (ℚ × ℚ)), ⟨1, 0, 1⟩⟩) ∧
    Predict ⟨([] : List (ℚ × ℚ)), ⟨1, 0, 1⟩⟩ 3 =
      Except.error PredictError.insufficientData :=
  ⟨(claim_C10_never_inspects_data ([] : List (ℚ × ℚ)) ⟨1, 0, 1⟩).1,
    (claim_C10_never_inspects_data ([] : List (ℚ × ℚ)) ⟨1, 0, 1⟩).2.2 3 (by decide)⟩

/-! ### Claim C8 (NewPredictor validation) -/

/-- C8: NewPredictor fails exactly when `na ≤ 0` or `nb < 0` or
`StepSize ≤ 0` (returning only an error, no predictor), and on success the
stored data and parameters are exactly those supplied. -/
theorem claim_C8_validation (data : List (ℚ × ℚ)) (params : ModelParameters) :
    ((∃ e, NewPredictor data params = Except.error e) ↔
      (params.AutoregressiveLags ≤ 0 ∨ params.ExternalInputLags < 0 ∨
        params.StepSize ≤ 0)) ∧
    (∀ q, NewPredictor data params = Except.ok q →
      q.Data = data ∧ q.Params = params) := by
  constructor
  · constructor
    · rintro ⟨e, he⟩
      by_contra hcon
      push_neg at hcon
      obtain ⟨ha, hb, hc⟩ := hcon
      rw [NewPredictor, if_neg (by omega), if_neg (by exact not_le.mpr hc)] at he
      exact Except.noConfusion he
    · intro h
      by_cases h1 : params.AutoregressiveLags ≤ 0 ∨ params.ExternalInputLags < 0
      · exact ⟨_, by rw [NewPredictor, if_pos h1]⟩
      · have h2 : params.StepSize ≤ 0 := by
          rcases h with h | h | h
          · exact absurd (Or.inl h) h1
          · exact absurd (Or.inr h) h1
          · exact h
        exact ⟨_, by rw [NewPredictor, if_neg h1, if_pos h2]⟩
  · intro q hq
    rw [NewPredictor] at hq
    by_cases h1 : params.AutoregressiveLags ≤ 0 ∨ params.ExternalInputLags < 0
    · rw [if_pos h1] at hq
      exact Except.noConfusion hq
    · rw [if_neg h1] at hq
      by_cases h2 : params.StepSize ≤ 0
      · rw [if_pos h2] at hq
        exact Except.noConfusion hq
      · rw [if_neg h2] at hq
        injection hq with h
        subst h
        exact ⟨rfl, rfl⟩

/-- Witness for C8: a successful construction stores the supplied data and
parameters. -/
theorem claim_C8_witness :
    (⟨[((1 : ℚ), (2 : ℚ))], ⟨2, 1, 1⟩⟩ : Predictor).Data = [((1 : ℚ), (2 : ℚ))] ∧
    (⟨[((1 : ℚ), (2 : ℚ))], ⟨2, 1, 1⟩⟩ : Predictor).Params =
      (⟨2, 1, 1⟩ : ModelParameters) :=
  (claim_C8_validation [((1 : ℚ), (2 : ℚ))] ⟨2, 1, 1⟩).2
    ⟨[((1 : ℚ), (2 : ℚ))], ⟨2, 1, 1⟩⟩ (by norm_num [NewPredictor])

/-! ### Claim C5 (coefficient estimator) -/

/-- The estimator's output coincides with the Mathlib nonsingular-inverse
formula (Mathlib's matrix inverse is definitionally
`Ring.inverse det • adjugate`, which over ℚ is `det⁻¹ • adjugate`). -/
lemma calculateTheta_eq {R C : ℕ} (phi : Matrix (Fin R) (Fin C) ℚ) (Y : List ℚ) :
    (calculateTheta phi Y).1 =
      (phi.transpose * phi)⁻¹ *
        (phi.transpose * Matrix.of fun (i : Fin R) (_ : Fin 1) =>
          (Y.drop (Y.length - R)).getD i.val 0) := by
  simp only [calculateTheta]
  rw [Matrix.inv_def, Ring.inverse_eq_inv]

/-- The singular flag returned by the estimator is exactly singularity of
the normal-equations matrix. -/
lemma calculateTheta_flag {R C : ℕ} (phi : Matrix (Fin R) (Fin C) ℚ) (Y : List ℚ) :
    ((calculateTheta phi Y).2 = true ↔ (phi.transpose * phi).det = 0) := by
  simp [calculateTheta]

/-- C5: theta solves the normal equations
`theta = (phiᵀ·phi)⁻¹ · phiᵀ · yTail` (yTail = last R entries of Y), and
for a square non-singular phi the round trip `phi·theta = yTail` holds
exactly. -/
theorem claim_C5_normal_equations :
    (∀ (R C : ℕ) (phi : Matrix (Fin R) (Fin C) ℚ) (Y : List ℚ),
      R ≤ Y.length → (phi.transpose * phi).det ≠ 0 →
      (calculateTheta phi Y).1 =
        (phi.transpose * phi)⁻¹ *
          (phi.transpose * Matrix.of fun (i : Fin R) (_ : Fin 1) =>
            (Y.drop (Y.length - R)).getD i.val 0)) ∧
    (∀ (C : ℕ) (phi : Matrix (Fin C) (Fin C) ℚ) (Y : List ℚ),
      C ≤ Y.length → phi.det ≠ 0 →
      phi * (calculateTheta phi Y).1 =
        Matrix.of fun (i : Fin C) (_ : Fin 1) =>
          (Y.drop (Y.length - C)).getD i.val 0) := by
  constructor
  · intro R C phi Y _ _
    exact calculateTheta_eq phi Y
  · intro C phi Y _ hdet
    have hU : IsUnit phi.det := isUnit_iff_ne_zero.mpr hdet
    have hUT : IsUnit phi.transpose.det := by
      rw [Matrix.det_transpose]
      exact hU
    rw [calculateTheta_eq, Matrix.mul_inv_rev]
    simp only [← Matrix.mul_assoc]
    rw [Matrix.mul_nonsing_inv phi hU, Matrix.one_mul,
      Matrix.nonsing_inv_mul phi.transpose hUT, Matrix.one_mul]

/-- Witness for C5 with the square non-singular matrix [[1,2],[3,4]]. -/
theorem claim_C5_witness :
    (2 : ℕ) ≤ ([(5 : ℚ), 6] : List ℚ).length ∧ (!![(1 : ℚ), 2; 3, 4]).det ≠ 0 ∧
    !![(1 : ℚ), 2; 3, 4] * (calculateTheta !![(1 : ℚ), 2; 3, 4] [5, 6]).1 =
      Matrix.of fun (i : Fin 2) (_ : Fin 1) =>
        (([(5 : ℚ), 6] : List ℚ).drop (([(5 : ℚ), 6] : List ℚ).length - 2)).getD i.val 0 :=
  ⟨by decide, by norm_num [Matrix.det_fin_two_of],
    claim_C5_normal_equations.2 2 !![(1 : ℚ), 2; 3, 4] [5, 6] (by decide)
      (by norm_num [Matrix.det_fin_two_of])⟩

/-! ### The Predict success path -/

/-- With a positive na and strictly more data than `m = max(na, nb)`,
Predict runs the whole pipeline and succeeds: the result zips the extended
time axis with the forecast series (of the same length), and the returned
condition flag is exactly singularity of the normal-equations matrix. -/
lemma Predict_ok (p : Predictor) (numToPredict : ℕ)
    (hna : 0 < p.Params.AutoregressiveLags)
    (hlen : max p.Params.AutoregressiveLags p.Params.ExternalInputLags <
      (p.Data.length : ℤ)) :
    ∃ yAp : List ℚ,
      yAp.length = p.Data.length + numToPredict ∧
      Predict p numToPredict = Except.ok
        ((extendTimeValues (p.Data.map Prod.snd) numToPredict p.Params.StepSize).zip yAp,
          phiSingular p) := by
  have hnotle : ¬ ((p.Data.length : ℤ) ≤
      max p.Params.AutoregressiveLags p.Params.ExternalInputLags) := not_le.mpr hlen
  have hguard : ¬ ((p.Data.map Prod.fst).length ≤
      (max p.Params.AutoregressiveLags p.Params.ExternalInputLags).toNat) := by
    simp only [List.length_map]
    omega
  simp only [Predict, phiSingular]
  rw [if_neg hnotle, constructPhiMatrix, if_neg hguard]
  refine ⟨_, ?_, rfl⟩
  rw [performPrediction_length, extendTimeValues_length, List.length_map]

/-! ### Claim C1 (end-to-end shape of Predict) -/

/-- C1: for a non-empty series of length N, valid parameters and horizon
H with N > m, Predict succeeds with an ordered list of (input, value)
pairs of length N + H whose final input component is
`lastHistoricalInput + H·StepSize` (hence the last historical input when
H = 0). -/
theorem claim_C1_predict_shape (p : Predictor) (H : ℕ)
    (hne : p.Data ≠ [])
    (hna : 0 < p.Params.AutoregressiveLags) (hnb : 0 ≤ p.Params.ExternalInputLags)
    (hstep : 0 < p.Params.StepSize)
    (hlen : max p.Params.AutoregressiveLags p.Params.ExternalInputLags <
      (p.Data.length : ℤ)) :
    ∃ res sing, Predict p H = Except.ok (res, sing) ∧
      res.length = p.Data.length + H ∧
      (res.getD (p.Data.length + H - 1) (0, 0)).1 =
        (p.Data.getD (p.Data.length - 1) (0, 0)).2 + (H : ℚ) * p.Params.StepSize := by
  obtain ⟨yAp, hlenY, hok⟩ := Predict_ok p H hna hlen
  have hpos : 0 < p.Data.length := List.length_pos.mpr hne
  have hpl : (extendTimeValues (p.Data.map Prod.snd) H p.Params.StepSize).length =
      p.Data.length + H := by
    rw [extendTimeValues_length, List.length_map]
  refine ⟨_, _, hok, ?_, ?_⟩
  · rw [List.length_zip, hpl, hlenY, min_self]
  · rw [zip_getD _ _ _ (by omega) (by omega)]
    show (extendTimeValues (p.Data.map Prod.snd) H p.Params.StepSize).getD
        (p.Data.length + H - 1) 0 = _
    rcases Nat.eq_zero_or_pos H with h0 | hHpos
    · subst h0
      rw [extendTimeValues_getD_lt _ _ _ _ (by simp; omega),
        map_snd_getD _ _ (by omega)]
      norm_num
    · have hidx : p.Data.length + H - 1 = (p.Data.map Prod.snd).length + H - 1 := by
        simp
      rw [hidx, extendTimeValues_getD_future _ _ _ H hHpos (le_refl H),
        map_snd_getD _ _ (by simp; omega)]
      simp

/-- Witness for C1: three data points, na = nb = 1, horizon 2. -/
theorem claim_C1_witness :
    ([((1 : ℚ), (10 : ℚ)), ((2 : ℚ), (20 : ℚ)), ((4 : ℚ), (30 : ℚ))] : List (ℚ × ℚ)) ≠ [] ∧
    (0 : ℤ) < 1 ∧ (0 : ℤ) ≤ 1 ∧ (0 : ℚ) < 5 ∧
    max (1 : ℤ) 1 <
      (([((1 : ℚ), (10 : ℚ)), ((2 : ℚ), (20 : ℚ)), ((4 : ℚ), (30 : ℚ))] : List (ℚ × ℚ)).length : ℤ) ∧
    ∃ res sing,
      Predict ⟨[((1 : ℚ), (10 : ℚ)), ((2 : ℚ), (20 : ℚ)), ((4 : ℚ), (30 : ℚ))], ⟨1, 1, 5⟩⟩ 2 =
        Except.ok (res, sing) ∧
      res.length = 5 ∧
      (res.getD 4 (0, 0)).1 = 30 + (2 : ℚ) * 5 :=
  ⟨by simp, by decide, by decide, by norm_num, by decide, by
    have h := claim_C1_predict_shape
      ⟨[((1 : ℚ), (10 : ℚ)), ((2 : ℚ), (20 : ℚ)), ((4 : ℚ), (30 : ℚ))], ⟨1, 1, 5⟩⟩ 2
      (by simp) (by decide) (by decide) (by norm_num) (by decide)
    simpa using h⟩

/-! ### Claim C6 (singular matrix is not fatal) -/

/-- C6: exact singularity of `phiᵀ·phi` is reported through the
condition flag, not as a fatal error: the estimator still returns a theta
with the flag set, and Predict (given enough data) still returns the full
forecast result carrying that flag.  (In exact arithmetic a square matrix
inversion has no failure mode other than singularity; gonum's remaining
failure modes are float-conditioning artifacts with no exact counterpart,
and the corresponding fatal branch in the Go code cannot fire here.) -/
theorem claim_C6_singular_not_fatal :
    (∀ (R C : ℕ) (phi : Matrix (Fin R) (Fin C) ℚ) (Y : List ℚ),
      ((calculateTheta phi Y).2 = true ↔ (phi.transpose * phi).det = 0)) ∧
    (∀ (p : Predictor) (H : ℕ), 0 < p.Params.AutoregressiveLags →
      max p.Params.AutoregressiveLags p.Params.ExternalInputLags < (p.Data.length : ℤ) →
      ∃ res, Predict p H = Except.ok (res, phiSingular p) ∧
        res.length = p.Data.length + H) := by
  constructor
  · intro R C phi Y
    exact calculateTheta_flag phi Y
  · intro p H hna hlen
    obtain ⟨yAp, hlenY, hok⟩ := Predict_ok p H hna hlen
    refine ⟨_, hok, ?_⟩
    rw [List.length_zip, extendTimeValues_length, List.length_map, hlenY, min_self]

/-- The normal-equations matrix of the sample predictor with all-zero data
values is exactly singular. -/
lemma phiSingular_sample :
    phiSingular ⟨[((0 : ℚ), (5 : ℚ)), ((0 : ℚ), (7 : ℚ))], ⟨1, 0, 1⟩⟩ = true := by
  simp only [phiSingular]
  rw [constructPhiMatrix, if_neg (by decide)]
  change decide _ = true
  rw [decide_eq_true_eq, Matrix.det_fin_two]
  norm_num [Matrix.mul_apply, Fin.sum_univ_one, Matrix.transpose_apply, Matrix.of_apply,
    buildPhiRow, List.range_succ]

/-- Witness for C6: a predictor whose design gives a singular
`phiᵀ·phi`; Predict still succeeds with the flag set and the full-length
result. -/
theorem claim_C6_witness :
    phiSingular ⟨[((0 : ℚ), (5 : ℚ)), ((0 : ℚ), (7 : ℚ))], ⟨1, 0, 1⟩⟩ = true ∧
    (0 : ℤ) < 1 ∧
    max (1 : ℤ) 0 < (([((0 : ℚ), (5 : ℚ)), ((0 : ℚ), (7 : ℚ))] : List (ℚ × ℚ)).length : ℤ) ∧
    ∃ res, Predict ⟨[((0 : ℚ), (5 : ℚ)), ((0 : ℚ), (7 : ℚ))], ⟨1, 0, 1⟩⟩ 1 =
        Except.ok (res, phiSingular ⟨[((0 : ℚ), (5 : ℚ)), ((0 : ℚ), (7 : ℚ))], ⟨1, 0, 1⟩⟩) ∧
      res.length = 3 :=
  ⟨phiSingular_sample, by decide, by decide, by
    have h := claim_C6_singular_not_fatal.2
      ⟨[((0 : ℚ), (5 : ℚ)), ((0 : ℚ), (7 : ℚ))], ⟨1, 0, 1⟩⟩ 1 (by decide) (by decide)
    simpa using h⟩

end AutoReg
